import Mathlib

/-!
Verification of the bass interpreter core and lockfile memo store.

The interpreter implementation (value model, reader, evaluator, binder,
ground environment) is exercised by the repository's tests
(`src/unnamed/part_000`, `src/reader_test.go`) but its own source is not in
`src/`; those parts are modelled from the specification, with the in-repo
tests fixing every behaviour they pin.  `src/pkg/bass/memo.go` is present
and is embedded directly.
-/

namespace Bass

/-- Positional lookup in a list, mirroring indexed access into the scope
store. -/
def nth {α : Type} : List α → Nat → Option α
  | [], _ => none
  | x :: _, 0 => some x
  | _ :: xs, n+1 => nth xs n

/-- Positional update in a list, mirroring indexed update of the scope
store. -/
def setNth {α : Type} : List α → Nat → α → List α
  | [], _, _ => []
  | _ :: xs, 0, a => a :: xs
  | x :: xs, n+1, a => x :: setNth xs n a

/-- Association-list lookup keyed by strings, mirroring a Go map read. -/
def getA {β : Type} : List (String × β) → String → Option β
  | [], _ => none
  | (k, v) :: rest, s => if k = s then some v else getA rest s

/-- Association-list write keyed by strings, mirroring a Go map write:
replace the existing entry for the key, else append. -/
def setA {β : Type} : List (String × β) → String → β → List (String × β)
  | [], k, v => [(k, v)]
  | (k', v') :: rest, k, v =>
    if k' = k then (k, v) :: rest else (k', v') :: setA rest k v

/-- Modelled from the spec: the built-in combiners of the ground
environment that the claims exercise (`op`, `do`, `def`, `if`, `eval`,
`wrap`, `unwrap`, `cons`, the variadic arithmetic, the n-ary comparisons
and the unary predicates).  The Go implementations are native functions
missing from `src/`. -/
inductive Builtin where
  | bOp | bDo | bDef | bIf | bEval | bWrap | bUnwrap | bCons
  | bAdd | bSub | bMul | bMax | bMin
  | bEq | bGt | bLt | bGe | bLe
  | bNullP | bBoolP | bNumP | bStrP | bSymP | bKeyP | bEmptyP
  | bPairP | bListP | bEnvP | bCombP | bAppP | bOperP
  deriving DecidableEq, Repr

/-- Modelled from the spec: the closed set of runtime values
(spec section 3; the Go type definitions are missing from `src/`, their
shape is fixed by the tests in `src/unnamed/part_000`).  `envRef` is a
handle into the scope store; `oper` is `bass.Operative` with formals,
eformal, body and captured static scope; `prim` is a native operative;
`applic` wraps exactly one combiner.  `int` carries the mathematical
value of a Go int64; every arithmetic builtin reduces its result back
into the signed 64-bit range through `wrap64`, matching Go's
two's-complement overflow. -/
inductive Value where
  | null
  | bool (b : Bool)
  | int (n : Int)
  | str (s : String)
  | symbol (s : String)
  | keyword (s : String)
  | ignore
  | empty
  | pair (a d : Value)
  | inert (a d : Value)
  | envRef (id : Nat)
  | oper (formals eformal body : Value) (envId : Nat)
  | prim (b : Builtin)
  | applic (u : Value)
  deriving DecidableEq, Repr

/-- Modelled from the spec: the error taxonomy (spec section 7) restricted
to what the embedded operations can raise.  `noFuel` is an artefact of the
fuelled evaluator, not a language error. -/
inductive Err where
  | unbound (s : String)
  | notCombiner (v : Value)
  | bindMismatch (need got : Value)
  | arity (op : String)
  | typeErr (op : String)
  | noFuel
  deriving DecidableEq, Repr

/-- Modelled from the spec: a scope is a mutable map from symbol names to
values plus an ordered list of parent scopes (spec section 4.4). -/
structure Scope where
  bindings : List (String × Value)
  parents : List Nat
  deriving DecidableEq, Repr

/-- Modelled from the spec: the store of all scopes created during an
evaluation; a `Value.envRef id` points at position `id`. -/
structure EState where
  scopes : List Scope
  deriving DecidableEq, Repr

/-- Update one scope of the store in place. -/
def modifyScope (st : EState) (id : Nat) (f : Scope → Scope) : EState :=
  match nth st.scopes id with
  | none => st
  | some sc => ⟨setNth st.scopes id (f sc)⟩

/-- Depth-first lookup over a worklist of scope ids: own map first, then
each parent in declaration order (spec section 4.4), fuelled against
cyclic parent graphs. -/
def lookupW (st : EState) : Nat → List Nat → String → Option Value
  | 0, _, _ => none
  | _+1, [], _ => none
  | fuel+1, id :: rest, s =>
    match nth st.scopes id with
    | none => lookupW st fuel rest s
    | some sc =>
      match getA sc.bindings s with
      | some v => some v
      | none => lookupW st fuel (sc.parents ++ rest) s

/-- The binding held by scope `id` itself (no parent walk); used to state
what `def` wrote into the calling scope. -/
def ownBinding (st : EState) (id : Nat) (s : String) : Option Value :=
  (nth st.scopes id).bind fun sc => getA sc.bindings s

/-- View a value as a head/tail cell: `Pair` and `InertPair` are
interchangeable for destructuring (spec section 4.3). -/
def asPairish : Value → Option (Value × Value)
  | .pair a d => some (a, d)
  | .inert a d => some (a, d)
  | _ => none

/-- Modelled from the spec: the Binder (spec section 4.3).  Destructure a
formal pattern against an operand tree, producing the bindings in order;
a failure is `BindMismatch` carrying the remaining pattern and the
offending operand verbatim. -/
def matchPat : Value → Value → Except Err (List (String × Value))
  | .ignore, _ => .ok []
  | .symbol s, v => .ok [(s, v)]
  | .empty, v =>
    if v = .empty then .ok [] else .error (.bindMismatch .empty v)
  | .pair a d, v =>
    match asPairish v with
    | some (oa, od) => do
      let bs1 ← matchPat a oa
      let bs2 ← matchPat d od
      .ok (bs1 ++ bs2)
    | none => .error (.bindMismatch (.pair a d) v)
  | .inert a d, v =>
    match asPairish v with
    | some (oa, od) => do
      let bs1 ← matchPat a oa
      let bs2 ← matchPat d od
      .ok (bs1 ++ bs2)
    | none => .error (.bindMismatch (.inert a d) v)
  | p, v => if p = v then .ok [] else .error (.bindMismatch p v)

/-- Write a batch of bindings into scope `id`. -/
def addBindings (st : EState) (id : Nat) (bs : List (String × Value)) : EState :=
  modifyScope st id fun sc =>
    { sc with bindings := bs.foldl (fun acc p => setA acc p.1 p.2) sc.bindings }

/-- Destructure and write the resulting bindings into scope `id`. -/
def bindIn (st : EState) (id : Nat) (pat v : Value) : Except Err EState := do
  let bs ← matchPat pat v
  .ok (addBindings st id bs)

/-- Modelled from `TestGroundBoolean` (src/unnamed/part_000 lines
680-705): the conditional's falsy values are `false` and `null` only.
`(if [] sentinel unevaluated)` and `(if "" sentinel unevaluated)` both
return `sentinel` from the then position while `unevaluated` is unbound,
so Empty and the empty string are truthy in the code, contrary to the
spec's falsy set. -/
def truthy : Value → Bool
  | .bool b => b
  | .null => false
  | _ => true

/-- Values that evaluate to themselves: everything but symbols and the
two pair flavours (symbols look up, pairs combine, inert pairs evaluate
their contents). -/
def isLiteral : Value → Bool
  | .symbol _ => false
  | .pair _ _ => false
  | .inert _ _ => false
  | _ => true

/-- Modelled from the spec: `combiner?` holds for operatives (user and
native) and applicatives. -/
def isCombiner : Value → Bool
  | .oper _ _ _ _ => true
  | .prim _ => true
  | .applic _ => true
  | _ => false

/-- Modelled from the spec: `list?` holds for Empty and for any
pair-flavoured cell whose tail is again a list. -/
def isListV : Value → Bool
  | .empty => true
  | .pair _ d => isListV d
  | .inert _ d => isListV d
  | _ => false

/-- Modelled from the spec and `TestGroundPrimitivePredicates`: `empty?`
holds exactly for Null, Empty and the empty String. -/
def emptyPred : Value → Bool
  | .null => true
  | .empty => true
  | .str s => decide (s = "")
  | _ => false

/-- Dispatch a unary ground predicate on the tag of its argument. -/
def predB : Builtin → Value → Bool
  | .bNullP, v => match v with | .null => true | _ => false
  | .bBoolP, v => match v with | .bool _ => true | _ => false
  | .bNumP, v => match v with | .int _ => true | _ => false
  | .bStrP, v => match v with | .str _ => true | _ => false
  | .bSymP, v => match v with | .symbol _ => true | _ => false
  | .bKeyP, v => match v with | .keyword _ => true | _ => false
  | .bEmptyP, v => emptyPred v
  | .bPairP, v => match v with | .pair _ _ => true | .inert _ _ => true | _ => false
  | .bListP, v => isListV v
  | .bEnvP, v => match v with | .envRef _ => true | _ => false
  | .bCombP, v => isCombiner v
  | .bAppP, v => match v with | .applic _ => true | _ => false
  | .bOperP, v => match v with | .oper _ _ _ _ => true | .prim _ => true | _ => false
  | _, _ => false

/-- Read an already evaluated argument list as integers. -/
def asInts : Value → Except Err (List Int)
  | .empty => .ok []
  | .pair (.int n) d => do .ok (n :: (← asInts d))
  | .pair _ _ => .error (.typeErr "number")
  | _ => .error (.typeErr "list")

/-- Two's-complement wrap-around into the signed 64-bit range, modelling
Go's int64 overflow behaviour (spec section 3 pins Int as a signed 64-bit
integer, and Go's `+`, `-`, `*` wrap on overflow). -/
def wrap64 (n : Int) : Int := (n + 2^63) % 2^64 - 2^63

/-- Modelled from the spec: variadic `+` over int64, a left fold of
wrapping addition with identity 0. -/
def sumL (ns : List Int) : Int := ns.foldl (fun a b => wrap64 (a + b)) 0

/-- Modelled from the spec: variadic `*` over int64, a left fold of
wrapping multiplication with identity 1. -/
def prodL (ns : List Int) : Int := ns.foldl (fun a b => wrap64 (a * b)) 1

/-- Modelled from the spec: `-` negates a single argument (wrapping, as
int64 negation does at the minimum value) and is the left fold of
wrapping subtraction on two or more; no arguments is an arity error. -/
def subL : List Int → Except Err Int
  | [] => .error (.arity "-")
  | [x] => .ok (wrap64 (-x))
  | x :: y :: rest => .ok ((y :: rest).foldl (fun a b => wrap64 (a - b)) x)

/-- Modelled from the spec: `max` of at least one argument. -/
def maxL : List Int → Except Err Int
  | [] => .error (.arity "max")
  | x :: rest => .ok (rest.foldl max x)

/-- Modelled from the spec: `min` of at least one argument. -/
def minL : List Int → Except Err Int
  | [] => .error (.arity "min")
  | x :: rest => .ok (rest.foldl min x)

/-- Modelled from the spec: the n-ary comparisons are true iff every
adjacent pair of arguments satisfies the relation. -/
def chainB (r : Int → Int → Bool) : List Int → Bool
  | [] => true
  | [_] => true
  | x :: y :: rest => r x y && chainB r (y :: rest)

/-- The formals pattern of the `op` builtin, as pinned verbatim by the
`invalid op` error cases of `TestGroundStdlib`. -/
def opPattern : Value :=
  .pair (.symbol "formals") (.pair (.symbol "eformal") (.symbol "body"))

/-- The at-least-one-body-form pattern of the `op` builtin, as pinned by
the `invalid op 2` error case of `TestGroundStdlib`. -/
def bodyPattern : Value := .pair (.symbol "f") .ignore

/-- Modelled from the spec: the `op` constructor (spec section 4.5).  It
destructures its operand tree against `(formals eformal . body)`, checks
the body has at least one form against `(f . _)`, and captures the current
scope; a single body form is stored bare (`TestGroundConstructors`), a
multi-form body is wrapped in an implicit `do`
(`TestGroundStdlib` `do op`). -/
def primOp (env : Nat) (operands : Value) : Except Err Value :=
  match asPairish operands with
  | none => .error (.bindMismatch opPattern operands)
  | some (formals, rest1) =>
    match asPairish rest1 with
    | none =>
      .error (.bindMismatch (.pair (.symbol "eformal") (.symbol "body")) rest1)
    | some (eformal, body) =>
      match asPairish body with
      | none => .error (.bindMismatch bodyPattern body)
      | some (f, brest) =>
        .ok (.oper formals eformal
          (if brest = .empty then f else .pair (.prim .bDo) body) env)

/-- The pending work items of the evaluator: evaluate a form, apply a
combiner, evaluate an argument list, run a body sequence, or run a
builtin. -/
inductive Req where
  | eval (env : Nat) (v : Value)
  | apply (env : Nat) (c : Value) (operands : Value)
  | args (env : Nat) (operands : Value)
  | seq (env : Nat) (forms : Value)
  | prim (env : Nat) (b : Builtin) (operands : Value)
  deriving DecidableEq, Repr

/-- Modelled from the spec: the evaluator (spec section 4.2), fuelled.
Literals yield themselves; a symbol looks up through parents; an inert
pair evaluates its two fields into a plain Pair (pinned by the
`do`/`fn`/`do op` cases of `TestGroundStdlib`, whose bracket literals
evaluate to Pair lists); a pair evaluates its head and applies it.  An
applicative evaluates the operand list left to right and forwards to the
underlying combiner; an operative gets the operand tree unevaluated in a
fresh child of its static scope with the dynamic scope bound to the
eformal. -/
def step : Nat → EState → Req → Except Err (Value × EState)
  | 0, _, _ => .error .noFuel
  | n+1, st, .eval env v =>
    match v with
    | .symbol s =>
      match lookupW st (n+1) [env] s with
      | some x => .ok (x, st)
      | none => .error (.unbound s)
    | .pair h t => do
      let (c, st1) ← step n st (.eval env h)
      step n st1 (.apply env c t)
    | .inert a d => do
      let (a1, st1) ← step n st (.eval env a)
      let (d1, st2) ← step n st1 (.eval env d)
      .ok (.pair a1 d1, st2)
    | other => .ok (other, st)
  | n+1, st, .apply env c operands =>
    match c with
    | .applic u => do
      let (argv, st1) ← step n st (.args env operands)
      step n st1 (.apply env u argv)
    | .oper f ef b senv => do
      let nid := st.scopes.length
      let st1 : EState := ⟨st.scopes ++ [⟨[], [senv]⟩]⟩
      let st2 ← bindIn st1 nid f operands
      let st3 ← bindIn st2 nid ef (.envRef env)
      step n st3 (.eval nid b)
    | .prim b => step n st (.prim env b operands)
    | other => .error (.notCombiner other)
  | n+1, st, .args env operands =>
    match operands with
    | .empty => .ok (.empty, st)
    | .pair a d => do
      let (a1, st1) ← step n st (.eval env a)
      let (d1, st2) ← step n st1 (.args env d)
      .ok (.pair a1 d1, st2)
    | .inert a d => do
      let (a1, st1) ← step n st (.eval env a)
      let (d1, st2) ← step n st1 (.args env d)
      .ok (.pair a1 d1, st2)
    | _ => .error (.typeErr "apply")
  | n+1, st, .seq env forms =>
    match forms with
    | .empty => .ok (.null, st)
    | .pair f rest => do
      let (v, st1) ← step n st (.eval env f)
      match rest with
      | .empty => .ok (v, st1)
      | _ => step n st1 (.seq env rest)
    | .inert f rest => do
      let (v, st1) ← step n st (.eval env f)
      match rest with
      | .empty => .ok (v, st1)
      | _ => step n st1 (.seq env rest)
    | _ => .error (.typeErr "do")
  | n+1, st, .prim env b operands =>
    match b with
    | .bOp => do
      let v ← primOp env operands
      .ok (v, st)
    | .bDo => step n st (.seq env operands)
    | .bDef =>
      match operands with
      | .pair p (.pair e .empty) => do
        let (v, st1) ← step n st (.eval env e)
        let st2 ← bindIn st1 env p v
        .ok (p, st2)
      | _ => .error (.arity "def")
    | .bIf =>
      match operands with
      | .pair c (.pair t (.pair e .empty)) => do
        let (cv, st1) ← step n st (.eval env c)
        if truthy cv then step n st1 (.eval env t)
        else step n st1 (.eval env e)
      | _ => .error (.arity "if")
    | .bEval =>
      match operands with
      | .pair form (.pair (.envRef id) .empty) => step n st (.eval id form)
      | .pair _ (.pair _ .empty) => .error (.typeErr "eval")
      | _ => .error (.arity "eval")
    | .bWrap =>
      match operands with
      | .pair c .empty =>
        if isCombiner c then .ok (.applic c, st) else .error (.typeErr "wrap")
      | _ => .error (.arity "wrap")
    | .bUnwrap =>
      match operands with
      | .pair (.applic u) .empty => .ok (u, st)
      | .pair _ .empty => .error (.typeErr "unwrap")
      | _ => .error (.arity "unwrap")
    | .bCons =>
      match operands with
      | .pair a (.pair d .empty) => .ok (.pair a d, st)
      | _ => .error (.arity "cons")
    | .bAdd => do .ok (.int (sumL (← asInts operands)), st)
    | .bSub => do .ok (.int (← subL (← asInts operands)), st)
    | .bMul => do .ok (.int (prodL (← asInts operands)), st)
    | .bMax => do .ok (.int (← maxL (← asInts operands)), st)
    | .bMin => do .ok (.int (← minL (← asInts operands)), st)
    | .bEq => do
      .ok (.bool (chainB (fun a b => decide (a = b)) (← asInts operands)), st)
    | .bGt => do
      .ok (.bool (chainB (fun a b => decide (a > b)) (← asInts operands)), st)
    | .bLt => do
      .ok (.bool (chainB (fun a b => decide (a < b)) (← asInts operands)), st)
    | .bGe => do
      .ok (.bool (chainB (fun a b => decide (a ≥ b)) (← asInts operands)), st)
    | .bLe => do
      .ok (.bool (chainB (fun a b => decide (a ≤ b)) (← asInts operands)), st)
    | other =>
      match operands with
      | .pair v .empty => .ok (.bool (predB other v), st)
      | _ => .error (.arity "predicate")

/-- Modelled from the spec: the ground bindings needed by the claims;
operatives are bound bare, applicatives (`fn` entries of the spec's
section 4.5 table) are wrapped. -/
def groundBindings : List (String × Value) :=
  [("op", .prim .bOp), ("do", .prim .bDo), ("def", .prim .bDef),
   ("if", .prim .bIf), ("eval", .applic (.prim .bEval)),
   ("wrap", .applic (.prim .bWrap)), ("unwrap", .applic (.prim .bUnwrap)),
   ("cons", .applic (.prim .bCons)),
   ("+", .applic (.prim .bAdd)), ("-", .applic (.prim .bSub)),
   ("*", .applic (.prim .bMul)), ("max", .applic (.prim .bMax)),
   ("min", .applic (.prim .bMin)),
   ("=?", .applic (.prim .bEq)), (">?", .applic (.prim .bGt)),
   ("<?", .applic (.prim .bLt)), (">=?", .applic (.prim .bGe)),
   ("<=?", .applic (.prim .bLe)),
   ("null?", .applic (.prim .bNullP)), ("boolean?", .applic (.prim .bBoolP)),
   ("number?", .applic (.prim .bNumP)), ("string?", .applic (.prim .bStrP)),
   ("symbol?", .applic (.prim .bSymP)), ("keyword?", .applic (.prim .bKeyP)),
   ("empty?", .applic (.prim .bEmptyP)), ("pair?", .applic (.prim .bPairP)),
   ("list?", .applic (.prim .bListP)), ("env?", .applic (.prim .bEnvP)),
   ("combiner?", .applic (.prim .bCombP)),
   ("applicative?", .applic (.prim .bAppP)),
   ("operative?", .applic (.prim .bOperP))]

/-- A fresh evaluation: scope 0 is ground, scope 1 is the empty top-level
scope whose parent is ground (`bass.New()` in the tests). -/
def initState : EState := ⟨[⟨groundBindings, []⟩, ⟨[], [0]⟩]⟩

/-- Build a proper Pair list, as the reader does for `(a b c)`. -/
def listV : List Value → Value
  | [] => .empty
  | v :: rest => .pair v (listV rest)

/-- Build an inert list, as the reader does for `[a b c]`. -/
def inertV : List Value → Value
  | [] => .empty
  | v :: rest => .inert v (inertV rest)

/-- Evaluate a top-level form in a fresh ground scope. -/
def run (fuel : Nat) (v : Value) : Except Err (Value × EState) :=
  step fuel initState (.eval 1 v)

/-- An argument list of integer literals. -/
def intsList : List Int → Value
  | [] => .empty
  | n :: rest => .pair (.int n) (intsList rest)

/-- Modelled from the spec: escape decoding of one character inside a
double-quoted string literal (spec section 4.1).  The `\f` mapping is
pinned by `TestReader` in `src/reader_test.go`, whose expected output for
the source escape `\f` is U+0007 (bell), not form feed. -/
def escChar : Char → Option Char
  | '"' => some '"'
  | 'n' => some '\n'
  | '\\' => some '\\'
  | 't' => some '\t'
  | 'a' => some (Char.ofNat 7)
  | 'f' => some (Char.ofNat 7)
  | 'r' => some '\r'
  | 'b' => some (Char.ofNat 8)
  | 'v' => some (Char.ofNat 11)
  | _ => none

/-- Modelled from the spec: the reader's decoding of the body of a
double-quoted string literal, resolving backslash escapes via `escChar`. -/
def unescape : List Char → Option (List Char)
  | [] => some []
  | '\\' :: c :: rest => do pure ((← escChar c) :: (← unescape rest))
  | '\\' :: [] => none
  | c :: rest => do pure (c :: (← unescape rest))

/-- One memoized call of `memo.go`: a `Memory` pairs the call's input with
its output. -/
structure Memory (V : Type) where
  input : V
  output : V
  deriving DecidableEq, Repr

/-- The update loop of `Lockfile.Store` in `memo.go`: replace the output
of every entry whose input equals the stored input, reporting whether any
match was found. -/
def storeLoop {V : Type} [DecidableEq V] :
    List (Memory V) → V → V → List (Memory V) × Bool
  | [], _, _ => ([], false)
  | e :: rest, inp, out =>
    let (rest1, upd) := storeLoop rest inp out
    if e.input = inp then ({ e with output := out } :: rest1, true)
    else (e :: rest1, upd)

/-- `Lockfile.Store` of `memo.go`, restricted to the entry list of one
category: update matching entries in place, and append a fresh entry only
when no stored input equals the new input. -/
def storeEntries {V : Type} [DecidableEq V]
    (entries : List (Memory V)) (inp out : V) : List (Memory V) :=
  let (es, upd) := storeLoop entries inp out
  if upd then es else es ++ [⟨inp, out⟩]

/-- The scan of `Lockfile.Retrieve` in `memo.go` over one category's
entries: the output of the first entry whose input matches. -/
def retrieveEntries {V : Type} [DecidableEq V] :
    List (Memory V) → V → Option V
  | [], _ => none
  | e :: rest, inp =>
    if e.input = inp then some e.output else retrieveEntries rest inp

/-- The program of the `do op` stdlib test: the operative expression
`(op [x y] e (eval [def x y] e) y)`. -/
def c1op : Value :=
  listV [.symbol "op", inertV [.symbol "x", .symbol "y"], .symbol "e",
    listV [.symbol "eval", inertV [.symbol "def", .symbol "x", .symbol "y"],
      .symbol "e"],
    .symbol "y"]

/-- The full `do op` call `((op [x y] e (eval [def x y] e) y) foo 42)`. -/
def c1prog : Value := listV [c1op, .symbol "foo", .int 42]

/-- The pattern `(a b [c d] e . fs)` of the advanced destructuring test. -/
def c2pat : Value :=
  .pair (.symbol "a") (.pair (.symbol "b")
    (.pair (inertV [.symbol "c", .symbol "d"])
      (.pair (.symbol "e") (.symbol "fs"))))

/-- The literal `[1 2 [3 4] 5 6 7]` of the advanced destructuring test. -/
def c2expr : Value :=
  inertV [.int 1, .int 2, inertV [.int 3, .int 4], .int 5, .int 6, .int 7]

/-- The form `(def (a b [c d] e . fs) [1 2 [3 4] 5 6 7])`. -/
def c2prog : Value := listV [.symbol "def", c2pat, c2expr]

/-- The failing construction `(op [x] _)`. -/
def c4prog : Value := listV [.symbol "op", inertV [.symbol "x"], .ignore]

/-- The failing construction `(op . false)`. -/
def c4progDot : Value := .pair (.symbol "op") (.bool false)

/-- The call `((wrap (op x _ x)) 1 2 (+ 1 2))`. -/
def c5prog : Value :=
  listV [listV [.symbol "wrap",
      listV [.symbol "op", .symbol "x", .ignore, .symbol "x"]],
    .int 1, .int 2, listV [.symbol "+", .int 1, .int 2]]

/-- The composition `(unwrap (wrap c))` with both combiners given as
already-resolved applicative values. -/
def uwForm (c : Value) : Value :=
  .pair (.applic (.prim .bUnwrap))
    (.pair (.pair (.applic (.prim .bWrap)) (.pair c .empty)) .empty)

/-- The body of the string literal of `TestReader` in `src/reader_test.go`,
character by character: `hello ` followed by the escapes
`\"`, `\n`, `\\`, `\t`, `\a`, `\f`, `\r`, `\b`, `\v`. -/
def readerTestSrc : List Char :=
  ['h', 'e', 'l', 'l', 'o', ' ', '\\', '"', '\\', 'n', '\\', '\\', '\\', 't',
   '\\', 'a', '\\', 'f', '\\', 'r', '\\', 'b', '\\', 'v']

/-- The decoded string that `TestReader` expects for `readerTestSrc`: note
the eleventh and twelfth characters are both U+0007, so the source escape
`\f` decodes to bell, not form feed. -/
def readerTestExpected : List Char :=
  ['h', 'e', 'l', 'l', 'o', ' ', '"', '\n', '\\', '\t', Char.ofNat 7,
   Char.ofNat 7, '\r', Char.ofNat 8, Char.ofNat 11]

/-! ## General lemmas about the embedding -/

theorem okBind {ε α β : Type} (a : α) (f : α → Except ε β) :
    (Except.ok a : Except ε α) >>= f = f a := rfl

theorem errBind {ε α β : Type} (e : ε) (f : α → Except ε β) :
    (Except.error e : Except ε α) >>= f = Except.error e := rfl

/-- Every value other than symbols and the two pair flavours evaluates to
itself without touching the state. -/
theorem litStep (n : Nat) (st : EState) (env : Nat) (v : Value)
    (h : isLiteral v = true) : step (n+1) st (.eval env v) = .ok (v, st) := by
  cases v <;> simp [isLiteral] at h <;> rfl

theorem asInts_intsList : ∀ ns : List Int, asInts (intsList ns) = .ok ns := by
  intro ns
  induction ns with
  | nil => rfl
  | cons x t ih => simp [intsList, asInts, ih, okBind]

theorem chainB_decide (p : Int → Int → Prop) [DecidableRel p] :
    ∀ ns, chainB (fun a b => decide (p a b)) ns = decide (List.Chain' p ns) := by
  intro ns
  induction ns with
  | nil => simp [chainB]
  | cons x t ih =>
    cases t with
    | nil => simp [chainB]
    | cons y rest => simp [chainB, ih, List.chain'_cons]

theorem foldl_add_acc (ns : List Int) :
    ∀ a : Int, ns.foldl (· + ·) a = a + ns.sum := by
  induction ns with
  | nil => simp
  | cons x t ih => intro a; simp [List.foldl_cons, ih, List.sum_cons]; ring

theorem foldl_mul_acc (ns : List Int) :
    ∀ a : Int, ns.foldl (· * ·) a = a * ns.prod := by
  induction ns with
  | nil => simp
  | cons x t ih => intro a; simp [List.foldl_cons, ih, List.prod_cons]; ring

theorem foldl_sub_acc (ns : List Int) :
    ∀ a : Int, ns.foldl (· - ·) a = a - ns.sum := by
  induction ns with
  | nil => simp
  | cons x t ih => intro a; simp [List.foldl_cons, ih, List.sum_cons]; ring

theorem wrap64_modEq (n : Int) : wrap64 n ≡ n [ZMOD 2^64] := by
  unfold wrap64
  have h : (n + 2^63) % 2^64 ≡ n + 2^63 [ZMOD 2^64] :=
    Int.emod_emod_of_dvd _ dvd_rfl
  have h2 := h.sub_right (2^63 : Int)
  rw [show n + 2^63 - 2^63 = n from by ring] at h2
  exact h2

theorem wrap64_range (n : Int) : -2^63 ≤ wrap64 n ∧ wrap64 n < 2^63 := by
  unfold wrap64
  have h1 := Int.emod_nonneg (n + 2^63) (by norm_num : (2^64 : Int) ≠ 0)
  have h2 := Int.emod_lt_of_pos (n + 2^63) (by norm_num : (0 : Int) < 2^64)
  omega

theorem wrap64_eq_self (n : Int) (h1 : -2^63 ≤ n) (h2 : n < 2^63) :
    wrap64 n = n := by
  unfold wrap64
  rw [Int.emod_eq_of_lt (by omega) (by omega)]
  omega

theorem wrap64_congr {a b : Int} (h : a ≡ b [ZMOD 2^64]) :
    wrap64 a = wrap64 b := by
  have h2 : (a + 2^63) % 2^64 = (b + 2^63) % 2^64 := h.add_right (2^63 : Int)
  unfold wrap64
  rw [h2]

/-- Two int64-representable values congruent mod 2^64 are equal. -/
theorem modEq_eq_of_range {a b : Int} (h : a ≡ b [ZMOD 2^64])
    (ha1 : -2^63 ≤ a) (ha2 : a < 2^63) (hb1 : -2^63 ≤ b) (hb2 : b < 2^63) :
    a = b := by
  calc a = wrap64 a := (wrap64_eq_self a ha1 ha2).symm
    _ = wrap64 b := wrap64_congr h
    _ = b := wrap64_eq_self b hb1 hb2

theorem foldl_exact_congr (g : Int → Int → Int)
    (hg : ∀ (a a' x : Int), a ≡ a' [ZMOD 2^64] → g a x ≡ g a' x [ZMOD 2^64]) :
    ∀ (ns : List Int) (a a' : Int), a ≡ a' [ZMOD 2^64] →
      ns.foldl g a ≡ ns.foldl g a' [ZMOD 2^64] := by
  intro ns
  induction ns with
  | nil => intro a a' h; simpa using h
  | cons x t ih => intro a a' h; simpa using ih _ _ (hg a a' x h)

/-- A left fold that wraps after every operation is congruent mod 2^64 to
the exact left fold, for any operation that respects the congruence. -/
theorem foldl_wrap_modEq (g : Int → Int → Int)
    (hg : ∀ (a a' x : Int), a ≡ a' [ZMOD 2^64] → g a x ≡ g a' x [ZMOD 2^64]) :
    ∀ (ns : List Int) (a : Int),
      ns.foldl (fun x y => wrap64 (g x y)) a ≡ ns.foldl g a [ZMOD 2^64] := by
  intro ns
  induction ns with
  | nil => intro a; exact Int.ModEq.refl a
  | cons x t ih =>
    intro a
    simp only [List.foldl_cons]
    exact (ih (wrap64 (g a x))).trans
      (foldl_exact_congr g hg t _ _ (wrap64_modEq (g a x)))

/-- A wrapping left fold stays inside the int64 range when it starts
there. -/
theorem foldl_wrap_range (g : Int → Int → Int) :
    ∀ (ns : List Int) (a : Int), -2^63 ≤ a → a < 2^63 →
      -2^63 ≤ ns.foldl (fun x y => wrap64 (g x y)) a ∧
        ns.foldl (fun x y => wrap64 (g x y)) a < 2^63 := by
  intro ns
  induction ns with
  | nil => intro a h1 h2; exact ⟨h1, h2⟩
  | cons x t ih =>
    intro a h1 h2
    simp only [List.foldl_cons]
    exact ih _ (wrap64_range (g a x)).1 (wrap64_range (g a x)).2

theorem sumL_modEq (ns : List Int) : sumL ns ≡ ns.sum [ZMOD 2^64] := by
  have h := foldl_wrap_modEq (· + ·) (fun a a' x h => h.add_right x) ns 0
  have h2 : ns.foldl (· + ·) 0 = ns.sum := by rw [foldl_add_acc]; ring
  rw [h2] at h
  exact h

theorem sumL_range (ns : List Int) : -2^63 ≤ sumL ns ∧ sumL ns < 2^63 :=
  foldl_wrap_range (· + ·) ns 0 (by norm_num) (by norm_num)

theorem prodL_modEq (ns : List Int) : prodL ns ≡ ns.prod [ZMOD 2^64] := by
  have h := foldl_wrap_modEq (· * ·) (fun a a' x h => h.mul_right x) ns 1
  have h2 : ns.foldl (· * ·) 1 = ns.prod := by rw [foldl_mul_acc]; ring
  rw [h2] at h
  exact h

theorem prodL_range (ns : List Int) : -2^63 ≤ prodL ns ∧ prodL ns < 2^63 :=
  foldl_wrap_range (· * ·) ns 1 (by norm_num) (by norm_num)

theorem subFold_modEq (x : Int) (l : List Int) :
    l.foldl (fun a b => wrap64 (a - b)) x ≡ x - l.sum [ZMOD 2^64] := by
  have h := foldl_wrap_modEq (· - ·) (fun a a' z h => h.sub_right z) l x
  have h2 : l.foldl (· - ·) x = x - l.sum := foldl_sub_acc l x
  rw [h2] at h
  exact h

theorem subFold_range (x y : Int) (rest : List Int) :
    -2^63 ≤ (y :: rest).foldl (fun a b => wrap64 (a - b)) x ∧
      (y :: rest).foldl (fun a b => wrap64 (a - b)) x < 2^63 := by
  simp only [List.foldl_cons]
  exact foldl_wrap_range (· - ·) rest _ (wrap64_range (x - y)).1
    (wrap64_range (x - y)).2

theorem le_foldl_max (ns : List Int) : ∀ a : Int, a ≤ ns.foldl max a := by
  induction ns with
  | nil => simp
  | cons x t ih => intro a; exact le_trans (le_max_left a x) (ih (max a x))

theorem foldl_max_mem (ns : List Int) : ∀ a : Int, ns.foldl max a ∈ a :: ns := by
  induction ns with
  | nil => simp
  | cons x t ih =>
    intro a
    have h := ih (max a x)
    rcases List.mem_cons.mp h with h1 | h1
    · rcases max_choice a x with h2 | h2 <;> rw [List.foldl_cons, h1, h2] <;> simp
    · simp [List.foldl_cons, List.mem_cons]
      right; right; exact h1

theorem foldl_max_ge (ns : List Int) :
    ∀ a z : Int, z ∈ a :: ns → z ≤ ns.foldl max a := by
  induction ns with
  | nil => intro a z hz; simp at hz; simp [hz]
  | cons x t ih =>
    intro a z hz
    rcases List.mem_cons.mp hz with h1 | h1
    · subst h1
      exact le_trans (le_max_left z x) (ih (max z x) (max z x) (List.mem_cons_self _ _))
    · rcases List.mem_cons.mp h1 with h2 | h2
      · subst h2
        exact le_trans (le_max_right a z) (ih (max a z) (max a z) (List.mem_cons_self _ _))
      · exact ih (max a x) z (List.mem_cons_of_mem _ h2)

theorem foldl_min_le (ns : List Int) : ∀ a : Int, ns.foldl min a ≤ a := by
  induction ns with
  | nil => simp
  | cons x t ih => intro a; exact le_trans (ih (min a x)) (min_le_left a x)

theorem foldl_min_mem (ns : List Int) : ∀ a : Int, ns.foldl min a ∈ a :: ns := by
  induction ns with
  | nil => simp
  | cons x t ih =>
    intro a
    have h := ih (min a x)
    rcases List.mem_cons.mp h with h1 | h1
    · rcases min_choice a x with h2 | h2 <;> rw [List.foldl_cons, h1, h2] <;> simp
    · simp [List.foldl_cons, List.mem_cons]
      right; right; exact h1

theorem foldl_min_ge (ns : List Int) :
    ∀ a z : Int, z ∈ a :: ns → ns.foldl min a ≤ z := by
  induction ns with
  | nil => intro a z hz; simp at hz; simp [hz]
  | cons x t ih =>
    intro a z hz
    rcases List.mem_cons.mp hz with h1 | h1
    · subst h1
      exact le_trans (ih (min z x) (min z x) (List.mem_cons_self _ _)) (min_le_left z x)
    · rcases List.mem_cons.mp h1 with h2 | h2
      · subst h2
        exact le_trans (ih (min a z) (min a z) (List.mem_cons_self _ _)) (min_le_right a z)
      · exact ih (min a x) z (List.mem_cons_of_mem _ h2)

theorem nth_append_self {α : Type} (l : List α) (a : α) :
    nth (l ++ [a]) l.length = some a := by
  induction l with
  | nil => rfl
  | cons x xs ih => simpa [nth] using ih

theorem setNth_append_self {α : Type} (l : List α) (a b : α) :
    setNth (l ++ [a]) l.length b = l ++ [b] := by
  induction l with
  | nil => rfl
  | cons x xs ih => simp [setNth, ih]

/-- Every failure of the binder is a `BindMismatch`: no other error kind
can come out of destructuring. -/
theorem matchPat_error_shape :
    ∀ (p o : Value) (err : Err), matchPat p o = .error err →
      ∃ need got, err = .bindMismatch need got := by
  intro p
  induction p with
  | pair a d iha ihd =>
    intro o err h
    rw [matchPat] at h
    cases hp : asPairish o with
    | none =>
      rw [hp] at h
      injection h with he
      exact ⟨_, _, he.symm⟩
    | some pr =>
      obtain ⟨oa, od⟩ := pr
      rw [hp] at h
      dsimp only at h
      cases hm : matchPat a oa with
      | error e1 =>
        rw [hm, errBind] at h
        injection h with he
        subst he
        exact iha oa _ hm
      | ok bs1 =>
        rw [hm, okBind] at h
        cases hm2 : matchPat d od with
        | error e2 =>
          rw [hm2, errBind] at h
          injection h with he
          subst he
          exact ihd od _ hm2
        | ok bs2 =>
          rw [hm2, okBind] at h
          exact absurd h (by simp)
  | inert a d iha ihd =>
    intro o err h
    rw [matchPat] at h
    cases hp : asPairish o with
    | none =>
      rw [hp] at h
      injection h with he
      exact ⟨_, _, he.symm⟩
    | some pr =>
      obtain ⟨oa, od⟩ := pr
      rw [hp] at h
      dsimp only at h
      cases hm : matchPat a oa with
      | error e1 =>
        rw [hm, errBind] at h
        injection h with he
        subst he
        exact iha oa _ hm
      | ok bs1 =>
        rw [hm, okBind] at h
        cases hm2 : matchPat d od with
        | error e2 =>
          rw [hm2, errBind] at h
          injection h with he
          subst he
          exact ihd od _ hm2
        | ok bs2 =>
          rw [hm2, okBind] at h
          exact absurd h (by simp)
  | ignore => intro o err h; simp [matchPat] at h
  | symbol s => intro o err h; simp [matchPat] at h
  | empty =>
    intro o err h
    rw [matchPat] at h
    split at h
    · exact absurd h (by simp)
    · injection h with he; exact ⟨_, _, he.symm⟩
  | null =>
    intro o err h
    rw [matchPat] at h
    all_goals try simp
    split at h
    · exact absurd h (by simp)
    · injection h with he; exact ⟨_, _, he.symm⟩
  | bool b =>
    intro o err h
    rw [matchPat] at h
    all_goals try simp
    split at h
    · exact absurd h (by simp)
    · injection h with he; exact ⟨_, _, he.symm⟩
  | int n =>
    intro o err h
    rw [matchPat] at h
    all_goals try simp
    split at h
    · exact absurd h (by simp)
    · injection h with he; exact ⟨_, _, he.symm⟩
  | str s =>
    intro o err h
    rw [matchPat] at h
    all_goals try simp
    split at h
    · exact absurd h (by simp)
    · injection h with he; exact ⟨_, _, he.symm⟩
  | keyword s =>
    intro o err h
    rw [matchPat] at h
    all_goals try simp
    split at h
    · exact absurd h (by simp)
    · injection h with he; exact ⟨_, _, he.symm⟩
  | envRef i =>
    intro o err h
    rw [matchPat] at h
    all_goals try simp
    split at h
    · exact absurd h (by simp)
    · injection h with he; exact ⟨_, _, he.symm⟩
  | oper f ef b e ihf ihef ihb =>
    intro o err h
    rw [matchPat] at h
    all_goals try simp
    split at h
    · exact absurd h (by simp)
    · injection h with he; exact ⟨_, _, he.symm⟩
  | prim b =>
    intro o err h
    rw [matchPat] at h
    all_goals try simp
    split at h
    · exact absurd h (by simp)
    · injection h with he; exact ⟨_, _, he.symm⟩
  | applic u ihu =>
    intro o err h
    rw [matchPat] at h
    all_goals try simp
    split at h
    · exact absurd h (by simp)
    · injection h with he; exact ⟨_, _, he.symm⟩

/-- The loop of `Lockfile.Store` replaces the output of every matching
entry and reports whether a match was seen. -/
theorem storeLoop_spec {V : Type} [DecidableEq V] :
    ∀ (es : List (Memory V)) (inp out : V),
      storeLoop es inp out =
        (es.map (fun e => if e.input = inp then { e with output := out } else e),
         es.any (fun e => decide (e.input = inp))) := by
  intro es inp out
  induction es with
  | nil => rfl
  | cons e rest ih =>
    rw [storeLoop, ih]
    by_cases h : e.input = inp <;> simp [h]

/-- The replacement map of `Lockfile.Store` is the identity when no entry
matches the stored input. -/
theorem storeMap_id {V : Type} [DecidableEq V] (inp out : V) :
    ∀ es : List (Memory V), (∀ e ∈ es, e.input ≠ inp) →
      es.map (fun e => if e.input = inp then { e with output := out } else e)
        = es := by
  intro es h
  induction es with
  | nil => rfl
  | cons e rest ih =>
    have he := h e (List.mem_cons_self _ _)
    simp [he, ih fun x hx => h x (List.mem_cons_of_mem _ hx)]

/-- Closed form of `storeEntries`: replace in place when some entry
matches, append otherwise. -/
theorem storeEntries_spec {V : Type} [DecidableEq V]
    (es : List (Memory V)) (inp out : V) :
    storeEntries es inp out =
      if es.any (fun e => decide (e.input = inp)) then
        es.map (fun e => if e.input = inp then { e with output := out } else e)
      else es ++ [⟨inp, out⟩] := by
  unfold storeEntries
  rw [storeLoop_spec]
  dsimp only
  by_cases h : es.any (fun e => decide (e.input = inp)) = true
  · rw [if_pos h, if_pos h]
  · rw [if_neg h, if_neg h]
    congr 1
    apply storeMap_id
    intro e he
    rw [Bool.not_eq_true, List.any_eq_false] at h
    simpa using h e he

/-- After replacing outputs in place, retrieval of the stored input finds
the new output. -/
theorem retrieve_map {V : Type} [DecidableEq V] (inp out : V) :
    ∀ es : List (Memory V),
      (∃ e ∈ es, e.input = inp) →
      retrieveEntries
        (es.map (fun e => if e.input = inp then { e with output := out } else e))
        inp = some out := by
  intro es h
  induction es with
  | nil => simp at h
  | cons e rest ih =>
    by_cases he : e.input = inp
    · simp [retrieveEntries, he]
    · obtain ⟨x, hx, hxi⟩ := h
      rcases List.mem_cons.mp hx with h1 | h1
      · subst h1; exact absurd hxi he
      · simp [retrieveEntries, he, ih ⟨x, h1, hxi⟩]

/-- After appending a fresh entry, retrieval of the stored input finds the
new output when no earlier entry matched. -/
theorem retrieve_append {V : Type} [DecidableEq V] (inp out : V) :
    ∀ es : List (Memory V), (∀ e ∈ es, e.input ≠ inp) →
      retrieveEntries (es ++ [⟨inp, out⟩]) inp = some out := by
  intro es h
  induction es with
  | nil => simp [retrieveEntries]
  | cons e rest ih =>
    have he := h e (List.mem_cons_self _ _)
    simp [retrieveEntries, he, ih fun x hx => h x (List.mem_cons_of_mem _ hx)]

/-! ## Claims -/

/-- C1: an operative receives its operand tree unevaluated, bound against
its formals, and receives the dynamic calling scope bound to its eformal;
in particular, calling the identity-formals operative returns any operand
tree verbatim, calling an eformal-returning operative returns the calling
scope, and evaluating `((op [x y] e (eval [def x y] e) y) foo 42)` in a
fresh ground scope yields 42 and binds `foo` to 42 in the calling scope. -/
theorem claim1_operative :
    (∀ (t : Value) (st : EState) (denv senv : Nat),
      step 3 st (.apply denv (.oper (.symbol "v") .ignore (.symbol "v") senv) t) =
        .ok (t, ⟨st.scopes ++ [⟨[("v", t)], [senv]⟩]⟩))
  ∧ (∀ (t : Value) (st : EState) (denv senv : Nat),
      step 3 st (.apply denv (.oper .ignore (.symbol "env") (.symbol "env") senv) t) =
        .ok (.envRef denv, ⟨st.scopes ++ [⟨[("env", .envRef denv)], [senv]⟩]⟩))
  ∧ (run 100 c1prog).toOption.map Prod.fst = some (.int 42)
  ∧ ((run 100 c1prog).toOption.bind fun r => ownBinding r.2 1 "foo") =
      some (.int 42) := by
  refine ⟨?_, ?_, rfl, rfl⟩
  · intro t st denv senv
    show step (2+1) st _ = _
    simp [step, bindIn, matchPat, okBind, addBindings, modifyScope,
      nth_append_self, setNth_append_self, lookupW, getA, setA]
  · intro t st denv senv
    show step (2+1) st _ = _
    simp [step, bindIn, matchPat, okBind, addBindings, modifyScope,
      nth_append_self, setNth_append_self, lookupW, getA, setA]

/-- C2: `(def pattern expr)` evaluates the expression, destructures the
result against the pattern binding each symbol in the current scope, and
returns the pattern; in particular
`(def (a b [c d] e . fs) [1 2 [3 4] 5 6 7])` binds `a=1 b=2 c=3 d=4 e=5`
and `fs=(6 7)` and returns the pattern. -/
theorem claim2_def :
    (∀ (n : Nat) (st st1 : EState) (env : Nat) (p e v : Value)
        (bs : List (String × Value)),
      step n st (.eval env e) = .ok (v, st1) →
      matchPat p v = .ok bs →
      step (n+1) st (.prim env .bDef (.pair p (.pair e .empty))) =
        .ok (p, addBindings st1 env bs))
  ∧ (run 100 c2prog).toOption.map Prod.fst = some c2pat
  ∧ ((run 100 c2prog).toOption.bind fun r => ownBinding r.2 1 "a") = some (.int 1)
  ∧ ((run 100 c2prog).toOption.bind fun r => ownBinding r.2 1 "b") = some (.int 2)
  ∧ ((run 100 c2prog).toOption.bind fun r => ownBinding r.2 1 "c") = some (.int 3)
  ∧ ((run 100 c2prog).toOption.bind fun r => ownBinding r.2 1 "d") = some (.int 4)
  ∧ ((run 100 c2prog).toOption.bind fun r => ownBinding r.2 1 "e") = some (.int 5)
  ∧ ((run 100 c2prog).toOption.bind fun r => ownBinding r.2 1 "fs") =
      some (.pair (.int 6) (.pair (.int 7) .empty)) := by
  refine ⟨?_, rfl, rfl, rfl, rfl, rfl, rfl, rfl⟩
  intro n st st1 env p e v bs h1 h2
  simp only [step, h1, okBind, bindIn, h2]

/-- Witness for C2 at `(def a 7)` in a fresh ground scope. -/
theorem claim2_witness :
    step 2 initState (.prim 1 .bDef (.pair (.symbol "a") (.pair (.int 7) .empty))) =
      .ok (.symbol "a", addBindings initState 1 [("a", .int 7)]) :=
  claim2_def.1 1 initState initState 1 (.symbol "a") (.int 7) (.int 7)
    [("a", .int 7)] rfl rfl

/-- C3 counterexample: with condition Empty or the empty string,
`(if x a b)` yields `a`, not `b`, refuting the claimed falsy set
`{false, null, (), ""}` — the repository's `TestGroundBoolean` expects
exactly these then-branch results. -/
theorem claim3_counterexample :
    (run 50 (listV [.symbol "if", inertV [], .int 1, .int 2])).toOption.map
      Prod.fst = some (.int 1)
  ∧ (run 50 (listV [.symbol "if", .str "", .int 1, .int 2])).toOption.map
      Prod.fst = some (.int 1)
  ∧ Value.int 1 ≠ Value.int 2 :=
  ⟨rfl, rfl, by decide⟩

/-- C3 (amended): `(if x a b)` evaluates and yields `b` exactly when the
condition evaluates to `false` or `null`; every other value — including
Empty and the empty string — selects `a`; the branch not taken is never
evaluated (the result is the evaluation of the chosen branch alone, as
the unbound symbols in the untaken branches of the five
`TestGroundBoolean` instances show). -/
theorem claim3_if :
    (∀ v : Value, truthy v = false ↔ (v = .bool false ∨ v = .null))
  ∧ (∀ (m : Nat) (st st1 : EState) (env : Nat) (c v a b : Value),
      step m st (.eval env c) = .ok (v, st1) →
      step (m+1) st (.prim env .bIf (.pair c (.pair a (.pair b .empty)))) =
        if truthy v = true then step m st1 (.eval env a)
        else step m st1 (.eval env b))
  ∧ (run 50 (listV [.symbol "if", .bool true, .int 7, .symbol "unevaluatedA"])).toOption.map
      Prod.fst = some (.int 7)
  ∧ (run 50 (listV [.symbol "if", .bool false, .symbol "unevaluatedB", .int 7])).toOption.map
      Prod.fst = some (.int 7)
  ∧ (run 50 (listV [.symbol "if", .null, .symbol "unevaluatedC", .int 7])).toOption.map
      Prod.fst = some (.int 7)
  ∧ (run 50 (listV [.symbol "if", inertV [], .int 7, .symbol "unevaluatedD"])).toOption.map
      Prod.fst = some (.int 7)
  ∧ (run 50 (listV [.symbol "if", .str "", .int 7, .symbol "unevaluatedE"])).toOption.map
      Prod.fst = some (.int 7) := by
  refine ⟨?_, ?_, rfl, rfl, rfl, rfl, rfl⟩
  · intro v
    cases v with
    | bool b => cases b <;> simp [truthy]
    | _ => simp [truthy]
  · intro m st st1 env c v a b h
    simp only [step, h, okBind]

/-- Witness for C3 at the condition `""` (truthy in the code) with an
unbound symbol in the untaken branch. -/
theorem claim3_witness :
    step 2 initState (.prim 1 .bIf
        (.pair (.str "") (.pair (.symbol "nope") (.pair (.int 7) .empty)))) =
      if truthy (.str "") = true then step 1 initState (.eval 1 (.symbol "nope"))
      else step 1 initState (.eval 1 (.int 7)) :=
  claim3_if.2.1 1 initState initState 1 (.str "") (.str "") (.symbol "nope")
    (.int 7) rfl

/-- C4: every destructuring failure raises a `BindMismatch` whose need
field is the remaining unmatched pattern and whose have field is the
offending operand, both verbatim; in particular a pair pattern against
Empty or a non-pair atom fails that way, `(op [x] _)` fails with need
`(f . _)` and have `()`, and `(op . false)` fails with need
`(formals eformal . body)` and have `false`. -/
theorem claim4_bind_mismatch :
    (∀ (p o : Value) (err : Err), matchPat p o = .error err →
      ∃ need got, err = .bindMismatch need got)
  ∧ (∀ a d : Value, matchPat (.pair a d) .empty =
      .error (.bindMismatch (.pair a d) .empty))
  ∧ (∀ (a d o : Value), asPairish o = none →
      matchPat (.pair a d) o = .error (.bindMismatch (.pair a d) o))
  ∧ run 100 c4prog = .error (.bindMismatch (.pair (.symbol "f") .ignore) .empty)
  ∧ run 100 c4progDot = .error (.bindMismatch
      (.pair (.symbol "formals") (.pair (.symbol "eformal") (.symbol "body")))
      (.bool false)) := by
  refine ⟨matchPat_error_shape, ?_, ?_, rfl, rfl⟩
  · intro a d; rfl
  · intro a d o h
    rw [matchPat, h]

/-- Witness for C4 at the pattern `(f . _)` against `()` and at a pair
pattern against the integer atom 5. -/
theorem claim4_witness :
    (∃ need got,
      (Err.bindMismatch bodyPattern .empty) = Err.bindMismatch need got)
  ∧ matchPat (.pair .ignore .ignore) (.int 5) =
      .error (.bindMismatch (.pair .ignore .ignore) (.int 5)) :=
  ⟨claim4_bind_mismatch.1 bodyPattern .empty _ rfl,
   claim4_bind_mismatch.2.2.1 .ignore .ignore (.int 5) rfl⟩

/-- C5: `unwrap` undoes `wrap` for every combiner (`wrap` adds exactly one
applicative layer, `unwrap` removes exactly one), and calling a wrapped
operative evaluates all arguments left to right before the operative runs,
as in `((wrap (op x _ x)) 1 2 (+ 1 2))` evaluating to `(1 2 3)`. -/
theorem claim5_wrap_unwrap :
    (∀ (st : EState) (env : Nat) (c : Value), isCombiner c = true →
      step 10 st (.eval env (uwForm c)) = .ok (c, st))
  ∧ (∀ (n : Nat) (st : EState) (env : Nat) (c : Value), isCombiner c = true →
      step (n+1) st (.prim env .bWrap (.pair c .empty)) = .ok (.applic c, st))
  ∧ (∀ (n : Nat) (st : EState) (env : Nat) (u : Value),
      step (n+1) st (.prim env .bUnwrap (.pair (.applic u) .empty)) = .ok (u, st))
  ∧ (run 100 c5prog).toOption.map Prod.fst =
      some (.pair (.int 1) (.pair (.int 2) (.pair (.int 3) .empty))) := by
  refine ⟨?_, ?_, ?_, rfl⟩
  · intro st env c h
    cases c <;> simp [isCombiner] at h <;> rfl
  · intro n st env c h
    simp [step, h]
  · intro n st env u
    simp [step]

/-- Witness for C5 at the native combiner `cons`. -/
theorem claim5_witness :
    step 10 initState (.eval 1 (uwForm (.prim .bCons))) =
      .ok (.prim .bCons, initState)
  ∧ step 1 initState (.prim 1 .bWrap (.pair (.prim .bCons) .empty)) =
      .ok (.applic (.prim .bCons), initState) :=
  ⟨claim5_wrap_unwrap.1 initState 1 (.prim .bCons) rfl,
   claim5_wrap_unwrap.2.1 0 initState 1 (.prim .bCons) rfl⟩

set_option maxRecDepth 40000 in
/-- C6: the variadic int64 arithmetic builtins: `+` of no arguments is 0
and left-folds wrapping addition, agreeing with the mathematical sum mod
2^64 and exactly whenever the sum is int64-representable; `*` of no
arguments is 1 and likewise for the product; `-` of one argument is
wrapping negation; `-` of two or more arguments is the left fold of
wrapping subtraction, congruent to head-minus-sum-of-rest mod 2^64 and
exact on representable results; `max`/`min` return the greatest and least
argument; `wrap64` is the identity on every representable value, so all
folds coincide with exact arithmetic while no operation overflows; with
the concrete instances `(+ 1 2 3) = 6`, `(*) = 1`, `(- 1) = -1`,
`(- 1 2 3) = -4`. -/
theorem claim6_arithmetic :
    (∀ n : Int, -2^63 ≤ n → n < 2^63 → wrap64 n = n)
  ∧ (∀ (n : Nat) (st : EState) (env : Nat),
      step (n+1) st (.prim env .bAdd .empty) = .ok (.int 0, st))
  ∧ (∀ (n : Nat) (st : EState) (env : Nat) (ns : List Int),
      step (n+1) st (.prim env .bAdd (intsList ns)) = .ok (.int (sumL ns), st))
  ∧ (∀ ns : List Int, sumL ns ≡ ns.sum [ZMOD 2^64])
  ∧ (∀ ns : List Int, -2^63 ≤ ns.sum → ns.sum < 2^63 → sumL ns = ns.sum)
  ∧ (∀ (n : Nat) (st : EState) (env : Nat),
      step (n+1) st (.prim env .bMul .empty) = .ok (.int 1, st))
  ∧ (∀ (n : Nat) (st : EState) (env : Nat) (ns : List Int),
      step (n+1) st (.prim env .bMul (intsList ns)) = .ok (.int (prodL ns), st))
  ∧ (∀ ns : List Int, prodL ns ≡ ns.prod [ZMOD 2^64])
  ∧ (∀ ns : List Int, -2^63 ≤ ns.prod → ns.prod < 2^63 → prodL ns = ns.prod)
  ∧ (∀ (n : Nat) (st : EState) (env : Nat) (x : Int),
      step (n+1) st (.prim env .bSub (intsList [x])) =
        .ok (.int (wrap64 (-x)), st))
  ∧ (∀ (n : Nat) (st : EState) (env : Nat) (x y : Int) (rest : List Int),
      step (n+1) st (.prim env .bSub (intsList (x :: y :: rest))) =
        .ok (.int ((y :: rest).foldl (fun a b => wrap64 (a - b)) x), st))
  ∧ (∀ (x y : Int) (rest : List Int),
      (y :: rest).foldl (fun a b => wrap64 (a - b)) x ≡
        x - (y :: rest).sum [ZMOD 2^64])
  ∧ (∀ (x y : Int) (rest : List Int),
      -2^63 ≤ x - (y :: rest).sum → x - (y :: rest).sum < 2^63 →
      (y :: rest).foldl (fun a b => wrap64 (a - b)) x = x - (y :: rest).sum)
  ∧ (∀ (x : Int) (rest : List Int) (m : Int), maxL (x :: rest) = .ok m →
      m ∈ x :: rest ∧ ∀ z ∈ x :: rest, z ≤ m)
  ∧ (∀ (x : Int) (rest : List Int) (m : Int), minL (x :: rest) = .ok m →
      m ∈ x :: rest ∧ ∀ z ∈ x :: rest, m ≤ z)
  ∧ (run 50 (listV [.symbol "+", .int 1, .int 2, .int 3])).toOption.map Prod.fst
      = some (.int 6)
  ∧ (run 50 (listV [.symbol "*"])).toOption.map Prod.fst = some (.int 1)
  ∧ (run 50 (listV [.symbol "-", .int 1])).toOption.map Prod.fst = some (.int (-1))
  ∧ (run 50 (listV [.symbol "-", .int 1, .int 2, .int 3])).toOption.map Prod.fst
      = some (.int (-4))
  ∧ (run 50 (listV [.symbol "max", .int 1, .int 3, .int 7, .int 5, .int 4])).toOption.map
      Prod.fst = some (.int 7)
  ∧ (run 50 (listV [.symbol "min", .int 5, .int 3, .int 7, .int 2, .int 4])).toOption.map
      Prod.fst = some (.int 2) := by
  refine ⟨wrap64_eq_self, ?_, ?_, sumL_modEq, ?_, ?_, ?_, prodL_modEq, ?_,
    ?_, ?_, ?_, ?_, ?_, ?_, rfl, rfl, rfl, rfl, rfl, rfl⟩
  · intro n st env; rfl
  · intro n st env ns
    simp [step, asInts_intsList, okBind]
  · intro ns h1 h2
    exact modEq_eq_of_range (sumL_modEq ns) (sumL_range ns).1 (sumL_range ns).2
      h1 h2
  · intro n st env; rfl
  · intro n st env ns
    simp [step, asInts_intsList, okBind]
  · intro ns h1 h2
    exact modEq_eq_of_range (prodL_modEq ns) (prodL_range ns).1
      (prodL_range ns).2 h1 h2
  · intro n st env x
    simp [step, asInts_intsList, okBind, subL]
  · intro n st env x y rest
    simp [step, asInts_intsList, okBind, subL]
  · intro x y rest
    exact subFold_modEq x (y :: rest)
  · intro x y rest h1 h2
    exact modEq_eq_of_range (subFold_modEq x (y :: rest))
      (subFold_range x y rest).1 (subFold_range x y rest).2 h1 h2
  · intro x rest m h
    simp [maxL] at h
    subst h
    exact ⟨foldl_max_mem rest x, fun z hz => foldl_max_ge rest x z hz⟩
  · intro x rest m h
    simp [minL] at h
    subst h
    exact ⟨foldl_min_mem rest x, fun z hz => foldl_min_ge rest x z hz⟩

/-- Witness for C6: wrap-around is the identity on 5, the exact-sum,
exact-product and exact-subtraction cases at small representable inputs,
and `max`/`min` at the `TestGroundNumeric` inputs. -/
theorem claim6_witness :
    wrap64 5 = 5
  ∧ sumL [1, 2, 3] = ([1, 2, 3] : List Int).sum
  ∧ prodL [2, 3, 4] = ([2, 3, 4] : List Int).prod
  ∧ ([2, 3] : List Int).foldl (fun a b => wrap64 (a - b)) 10 =
      10 - ([2, 3] : List Int).sum
  ∧ ((7 : Int) ∈ ([1, 3, 7, 5, 4] : List Int) ∧
      ∀ z ∈ ([1, 3, 7, 5, 4] : List Int), z ≤ (7 : Int))
  ∧ ((2 : Int) ∈ ([5, 3, 7, 2, 4] : List Int) ∧
      ∀ z ∈ ([5, 3, 7, 2, 4] : List Int), (2 : Int) ≤ z) := by
  obtain ⟨h1, _, _, _, h5, _, _, _, h9, _, _, _, h13, h14, h15, _⟩ :=
    claim6_arithmetic
  exact ⟨h1 5 (by decide) (by decide),
    h5 [1, 2, 3] (by decide) (by decide),
    h9 [2, 3, 4] (by decide) (by decide),
    h13 10 2 [3] (by decide) (by decide),
    h14 1 [3, 7, 5, 4] 7 rfl,
    h15 5 [3, 7, 2, 4] 2 rfl⟩

/-- C7: each of the n-ary comparisons `=?`, `>?`, `<?`, `>=?`, `<=?`
returns true if and only if every adjacent pair of arguments satisfies the
corresponding relation; with the concrete instances `(=? 1 1 1)` true,
`(=? 1 2 1)` false, `(>? 3 2 1)` true, `(>? 3 2 2)` false. -/
theorem claim7_comparisons :
    (∀ (n : Nat) (st : EState) (env : Nat) (ns : List Int),
      step (n+1) st (.prim env .bEq (intsList ns)) =
        .ok (.bool (decide (List.Chain' (fun a b : Int => a = b) ns)), st))
  ∧ (∀ (n : Nat) (st : EState) (env : Nat) (ns : List Int),
      step (n+1) st (.prim env .bGt (intsList ns)) =
        .ok (.bool (decide (List.Chain' (fun a b : Int => a > b) ns)), st))
  ∧ (∀ (n : Nat) (st : EState) (env : Nat) (ns : List Int),
      step (n+1) st (.prim env .bLt (intsList ns)) =
        .ok (.bool (decide (List.Chain' (fun a b : Int => a < b) ns)), st))
  ∧ (∀ (n : Nat) (st : EState) (env : Nat) (ns : List Int),
      step (n+1) st (.prim env .bGe (intsList ns)) =
        .ok (.bool (decide (List.Chain' (fun a b : Int => a ≥ b) ns)), st))
  ∧ (∀ (n : Nat) (st : EState) (env : Nat) (ns : List Int),
      step (n+1) st (.prim env .bLe (intsList ns)) =
        .ok (.bool (decide (List.Chain' (fun a b : Int => a ≤ b) ns)), st))
  ∧ (run 50 (listV [.symbol "=?", .int 1, .int 1, .int 1])).toOption.map Prod.fst
      = some (.bool true)
  ∧ (run 50 (listV [.symbol "=?", .int 1, .int 2, .int 1])).toOption.map Prod.fst
      = some (.bool false)
  ∧ (run 50 (listV [.symbol ">?", .int 3, .int 2, .int 1])).toOption.map Prod.fst
      = some (.bool true)
  ∧ (run 50 (listV [.symbol ">?", .int 3, .int 2, .int 2])).toOption.map Prod.fst
      = some (.bool false) := by
  refine ⟨?_, ?_, ?_, ?_, ?_, rfl, rfl, rfl, rfl⟩ <;>
    intro n st env ns <;>
    simp [step, asInts_intsList, okBind, chainB_decide]

/-- C8 counterexample: the reader does not decode `\f` to the form feed
character U+000C. -/
theorem claim8_counterexample :
    unescape ['\\', 'f'] ≠ some [Char.ofNat 12] := by decide

/-- C8 (amended): the reader decodes the escapes `\"`, `\\`, `\n`, `\t`,
`\r`, `\b`, `\v`, `\a` to their conventional characters, but decodes `\f`
to the bell character U+0007 rather than form feed, exactly as the
`TestReader` string pins. -/
theorem claim8_escapes :
    unescape ['\\', '"'] = some ['"']
  ∧ unescape ['\\', '\\'] = some ['\\']
  ∧ unescape ['\\', 'n'] = some ['\n']
  ∧ unescape ['\\', 't'] = some ['\t']
  ∧ unescape ['\\', 'r'] = some ['\r']
  ∧ unescape ['\\', 'b'] = some [Char.ofNat 8]
  ∧ unescape ['\\', 'v'] = some [Char.ofNat 11]
  ∧ unescape ['\\', 'a'] = some [Char.ofNat 7]
  ∧ unescape ['\\', 'f'] = some [Char.ofNat 7]
  ∧ unescape readerTestSrc = some readerTestExpected :=
  ⟨rfl, rfl, rfl, rfl, rfl, rfl, rfl, rfl, rfl, rfl⟩

/-- C9 counterexample: Empty and the empty string are in the truth set of
`empty?` yet are truthy for `if`, so the truth set of `empty?` is not the
falsy set of `if` minus `false` (which is just `{null}`). -/
theorem claim9_counterexample :
    emptyPred .empty = true ∧ truthy .empty = true
  ∧ emptyPred (.str "") = true ∧ truthy (.str "") = true :=
  ⟨rfl, rfl, rfl, rfl⟩

/-- C9 (amended): the ground predicate `empty?` holds for exactly Null,
Empty and the empty String, and for no other value (in particular not for
`false` or Ignore); its truth set strictly contains the falsy set of `if`
minus `false`, which is exactly `{null}`. -/
theorem claim9_empty_pred :
    (∀ v : Value, emptyPred v = true ↔
      (v = .null ∨ v = .empty ∨ v = .str ""))
  ∧ (∀ v : Value, (truthy v = false ∧ v ≠ .bool false) ↔ v = .null)
  ∧ (∀ (n : Nat) (st : EState) (env : Nat) (v : Value),
      step (n+1) st (.prim env .bEmptyP (.pair v .empty)) =
        .ok (.bool (emptyPred v), st))
  ∧ (run 50 (listV [.symbol "empty?", .null])).toOption.map Prod.fst
      = some (.bool true)
  ∧ (run 50 (listV [.symbol "empty?", inertV []])).toOption.map Prod.fst
      = some (.bool true)
  ∧ (run 50 (listV [.symbol "empty?", .str ""])).toOption.map Prod.fst
      = some (.bool true)
  ∧ (run 50 (listV [.symbol "empty?", .bool false])).toOption.map Prod.fst
      = some (.bool false)
  ∧ (run 50 (listV [.symbol "empty?", .ignore])).toOption.map Prod.fst
      = some (.bool false) := by
  refine ⟨?_, ?_, ?_, rfl, rfl, rfl, rfl, rfl⟩
  · intro v
    cases v <;> simp [emptyPred]
  · intro v
    cases v with
    | bool b => cases b <;> simp [truthy]
    | _ => simp [truthy]
  · intro n st env v; rfl

/-- C10: `Lockfile.Store` keeps at most one entry per distinct input in a
category: it replaces the output of an existing entry with equal input in
place, appends a fresh entry only when no equal input exists, and after a
store the stored input retrieves the new output. -/
theorem claim10_store :
    (∀ (V : Type) [DecidableEq V] (es : List (Memory V)) (inp out : V),
      es.Pairwise (fun a b => a.input ≠ b.input) →
      (storeEntries es inp out).Pairwise (fun a b => a.input ≠ b.input))
  ∧ (∀ (V : Type) [DecidableEq V] (es : List (Memory V)) (inp out : V),
      (∀ e ∈ es, e.input ≠ inp) →
      storeEntries es inp out = es ++ [⟨inp, out⟩])
  ∧ (∀ (V : Type) [DecidableEq V] (es : List (Memory V)) (inp out : V),
      (∃ e ∈ es, e.input = inp) →
      storeEntries es inp out =
        es.map (fun e => if e.input = inp then { e with output := out } else e))
  ∧ (∀ (V : Type) [DecidableEq V] (es : List (Memory V)) (inp out : V),
      retrieveEntries (storeEntries es inp out) inp = some out) := by
  refine ⟨?_, ?_, ?_, ?_⟩
  · intro V _ es inp out hp
    rw [storeEntries_spec]
    by_cases hany : es.any (fun e => decide (e.input = inp)) = true
    · rw [if_pos hany, List.pairwise_map]
      refine hp.imp ?_
      intro a b hab
      by_cases ha : a.input = inp <;> by_cases hb : b.input = inp <;>
        simp [ha, hb] <;> simp [ha, hb] at hab ⊢ <;> try exact hab
    · rw [if_neg hany, List.pairwise_append]
      have hall : ∀ e ∈ es, e.input ≠ inp := by
        rw [Bool.not_eq_true, List.any_eq_false] at hany
        intro e he
        simpa using hany e he
      refine ⟨hp, List.pairwise_singleton _ _, ?_⟩
      intro a ha b hb
      rw [List.mem_singleton] at hb
      subst hb
      exact hall a ha
  · intro V _ es inp out h
    have hany : es.any (fun e => decide (e.input = inp)) = false := by
      rw [List.any_eq_false]
      intro e he
      simpa using h e he
    rw [storeEntries_spec, if_neg (by rw [hany]; exact Bool.false_ne_true)]
  · intro V _ es inp out h
    have hany : es.any (fun e => decide (e.input = inp)) = true := by
      rw [List.any_eq_true]
      obtain ⟨e, he, hei⟩ := h
      exact ⟨e, he, by simpa using hei⟩
    rw [storeEntries_spec, if_pos hany]
  · intro V _ es inp out
    rw [storeEntries_spec]
    by_cases hany : es.any (fun e => decide (e.input = inp)) = true
    · rw [if_pos hany]
      rw [List.any_eq_true] at hany
      obtain ⟨e, he, hei⟩ := hany
      exact retrieve_map inp out es ⟨e, he, by simpa using hei⟩
    · rw [if_neg hany]
      have hall : ∀ e ∈ es, e.input ≠ inp := by
        rw [Bool.not_eq_true, List.any_eq_false] at hany
        intro e he
        simpa using hany e he
      exact retrieve_append inp out es hall

/-- Witness for C10 on a two-entry category over integer values. -/
theorem claim10_witness :
    (storeEntries [⟨1, 2⟩, ⟨3, 4⟩] (1 : Int) 9).Pairwise
      (fun a b => a.input ≠ b.input)
  ∧ storeEntries [⟨1, 2⟩, ⟨3, 4⟩] (5 : Int) 9 = [⟨1, 2⟩, ⟨3, 4⟩] ++ [⟨5, 9⟩]
  ∧ storeEntries [⟨1, 2⟩, ⟨3, 4⟩] (1 : Int) 9 =
      ([⟨1, 2⟩, ⟨3, 4⟩] : List (Memory Int)).map
        (fun e => if e.input = 1 then { e with output := 9 } else e)
  ∧ retrieveEntries (storeEntries [⟨1, 2⟩, ⟨3, 4⟩] (1 : Int) 9) 1 = some 9 :=
  ⟨claim10_store.1 Int [⟨1, 2⟩, ⟨3, 4⟩] 1 9 (by decide),
   claim10_store.2.1 Int [⟨1, 2⟩, ⟨3, 4⟩] 5 9 (by decide),
   claim10_store.2.2.1 Int [⟨1, 2⟩, ⟨3, 4⟩] 1 9 ⟨⟨1, 2⟩, by decide, rfl⟩,
   claim10_store.2.2.2 Int [⟨1, 2⟩, ⟨3, 4⟩] 1 9⟩

end Bass
